import Mathlib

/-!
# Verification of the cachecat tunneling engine

Shallow embedding of the core of the cachecat repository
(src/cachecat/session.py, src/cachecat/io.py, src/cachecat/cache.py)
together with proofs about the claims of its specification.

Modelling conventions:

* Python byte strings are `List Nat` (each element < 256); Python strings are
  `List Char`.
* The external shortuuid library's deterministic `uuid` function is not part of
  the repository; theorems about tokens quantify over an arbitrary function
  `u : List Char → List Char`, which captures exactly that `shortuuid.uuid` is
  a deterministic function of its seed string.
* Exceptions that the code uses as control-flow signals (`NotCachedException`,
  `AlreadyCachedException`) are tagged result variants (`GetOutcome`,
  `SetOutcome`).  Transport errors (non-2xx HTTP) abort the operations before
  the modelled logic runs and are outside the embedding; all claims below are
  scoped to 2xx responses.
* Loops over the (infinite) `Session` iterator take an explicit fuel argument
  and return `none` when the fuel runs out; the source loops are unbounded.
* The remote HTTP cache is an oracle: a pure function from the request token
  (and, for writes, the chunk) to the classified outcome of the request.
-/

namespace Cachecat

/-- Helper for `bit_length`, structurally recursive on a fuel argument so that
it reduces inside the kernel; starting the fuel at the number itself is always
enough because the value at least halves at every step. -/
def bit_length_fuel : Nat → Nat → Nat
  | _, 0 => 0
  | 0, _ + 1 => 0
  | fuel + 1, n + 1 => bit_length_fuel fuel ((n + 1) / 2) + 1

/-- Embedding of Python `int.bit_length()` for non-negative integers:
`bit_length 0 = 0`, and otherwise the number of binary digits. -/
def bit_length (n : Nat) : Nat :=
  bit_length_fuel n n

/-- The default shortuuid alphabet (`shortuuid.get_alphabet()`): 57 URL-safe
characters, digits `0`, `1` and letters `I`, `O`, `l` excluded. -/
def shortuuid_alphabet : List Char :=
  "23456789ABCDEFGHJKLMNPQRSTUVWXYZabcdefghijkmnopqrstuvwxyz".toList

/-- Helper for `int_to_string`: emits the digits of `number` least significant
first, exactly like the `while number:` loop of `session.int_to_string`.  The
first argument is fuel; starting it at `number` itself is enough for any
alphabet of at least two characters, because the value strictly decreases at
each division. -/
def int_to_string_rev (alphabet : List Char) : Nat → Nat → List Char
  | _, 0 => []
  | 0, _ + 1 => []
  | fuel + 1, n + 1 =>
      alphabet.getD ((n + 1) % alphabet.length) 'A' ::
        int_to_string_rev alphabet fuel ((n + 1) / alphabet.length)

/-- Embedding of `session.int_to_string(number, alphabet)` (the source is always
called with `padding=None`, so the padding branch is omitted): express `number`
in the given alphabet, most significant digit first. -/
def int_to_string (number : Nat) (alphabet : List Char) : List Char :=
  (int_to_string_rev alphabet number number).reverse

/-- State of `session.Session`: the shared channel (`port`), the current stack
position (`step`) and the wrap-around modulus (`max_step`, default `0xffff`). -/
structure Session where
  port : Nat
  step : Nat
  max_step : Nat
deriving DecidableEq

/-- The seed string built by `Session.token`:
`_, step = divmod(self.step, self.max_step)` followed by
`number = (self.port << self.max_step.bit_length()) + step` and
`int_to_string(number, shortuuid.get_alphabet())`. -/
def Session.tokenName (s : Session) : List Char :=
  int_to_string
    ((s.port <<< bit_length s.max_step) + (s.step / s.max_step, s.step % s.max_step).2)
    shortuuid_alphabet

/-- `Session.token`: the seed string passed through `shortuuid.uuid`, the
latter modelled as an arbitrary function `u` (see the module docstring). -/
def Session.token (u : List Char → List Char) (s : Session) : List Char :=
  u s.tokenName

/-- The `self.step += 1` performed by `Session.__next__` after it has captured
the current `(step, token)` pair. -/
def Session.advance (s : Session) : Session :=
  { s with step := s.step + 1 }

/-! ## Base64 (model of `base64.urlsafe_b64encode` / `urlsafe_b64decode`) -/

/-- The URL-safe base64 alphabet. -/
def B64_ALPHABET : List Char :=
  "ABCDEFGHIJKLMNOPQRSTUVWXYZabcdefghijklmnopqrstuvwxyz0123456789-_".toList

/-- Character for a sextet value (only ever applied below 64). -/
def b64char (n : Nat) : Char :=
  B64_ALPHABET.getD n 'A'

/-- Sextet value of a character.  `urlsafe_b64decode` first translates
`-` → `+` and `_` → `/` and then decodes with the standard alphabet, so the
standard specials `+` and `/` are accepted as well. -/
def b64index (c : Char) : Option Nat :=
  if c = '+' then some 62
  else if c = '/' then some 63
  else B64_ALPHABET.findIdx? (fun x => x = c)

/-- Characters that `b64decode` keeps; anything else is discarded before the
padding check (CPython behaviour with `validate=False`, the default). -/
def b64KeepChar (c : Char) : Bool :=
  (b64index c).isSome || c = '='

/-- Model of `base64.urlsafe_b64encode`: groups of three bytes become four
alphabet characters; a trailing group of one or two bytes is padded with
`=`. -/
def b64encode : List Nat → List Char
  | [] => []
  | [x] => [b64char (x / 4), b64char (x % 4 * 16), '=', '=']
  | [x, y] => [b64char (x / 4), b64char (x % 4 * 16 + y / 16), b64char (y % 16 * 4), '=']
  | x :: y :: z :: rest =>
      b64char (x / 4) :: b64char (x % 4 * 16 + y / 16) :: b64char (y % 16 * 4 + z / 64) ::
        b64char (z % 64) :: b64encode rest

/-- Core of the base64 decoder, after junk characters have been discarded:
processes quads of characters; a final quad may carry one or two `=` padding
characters; any other shape (in particular a length that is not a multiple of
four) is a `binascii.Error`, modelled as `none`.  As in CPython, the bits of a
padded sextet that fall outside the encoded bytes are dropped without being
checked. -/
def b64decodeCore : List Char → Option (List Nat)
  | [] => some []
  | a :: b :: c :: d :: rest =>
      if c = '=' && d = '=' && rest.isEmpty then
        match b64index a, b64index b with
        | some sa, some sb => some [sa * 4 + sb / 16]
        | _, _ => none
      else if d = '=' && rest.isEmpty then
        match b64index a, b64index b, b64index c with
        | some sa, some sb, some sc => some [sa * 4 + sb / 16, sb % 16 * 16 + sc / 4]
        | _, _, _ => none
      else
        match b64index a, b64index b, b64index c, b64index d with
        | some sa, some sb, some sc, some sd =>
            (b64decodeCore rest).map
              (fun tail =>
                (sa * 4 + sb / 16) :: (sb % 16 * 16 + sc / 4) :: (sc % 4 * 64 + sd) :: tail)
        | _, _, _, _ => none
  | _ => none

/-- Model of `base64.urlsafe_b64decode` on strings: discard characters outside
the alphabet, then decode; `none` models the `binascii.Error` raised on invalid
padding (a `ValueError`, caught by `Cache._extract`). -/
def b64decode (s : List Char) : Option (List Nat) :=
  b64decodeCore (s.filter b64KeepChar)

/-! ## Percent-encoding (model of `urllib.parse.urlencode` / `parse_qsl`) -/

/-- Characters `urllib.parse.quote_plus` leaves unescaped (the `ALWAYS_SAFE`
set: ASCII letters, digits, and `_.-~`). -/
def isUrlSafeChar (c : Char) : Bool :=
  c.isAlphanum || c = '_' || c = '.' || c = '-' || c = '~'

/-- Upper-case hexadecimal digit, as produced by `quote_plus`. -/
def hexDigit (n : Nat) : Char :=
  "0123456789ABCDEF".toList.getD n '0'

/-- Value of a hexadecimal digit (both cases), as accepted by `unquote_plus`;
48–57 are the codes of `0`–`9`, 65–70 of `A`–`F`, 97–102 of `a`–`f`. -/
def hexVal (c : Char) : Option Nat :=
  let n := c.toNat
  if 48 ≤ n ∧ n ≤ 57 then some (n - 48)
  else if 65 ≤ n ∧ n ≤ 70 then some (n - 55)
  else if 97 ≤ n ∧ n ≤ 102 then some (n - 87)
  else none

/-- `quote_plus` on a single byte (viewed as its character): safe characters
pass through, space becomes `+`, everything else becomes `%XX`. -/
def quoteChar (c : Char) : List Char :=
  if isUrlSafeChar c then [c]
  else if c = ' ' then ['+']
  else ['%', hexDigit (c.toNat / 16), hexDigit (c.toNat % 16)]

/-- Model of `urllib.parse.quote_plus` over an ASCII string / byte string. -/
def quotePlus : List Char → List Char
  | [] => []
  | c :: rest => quoteChar c ++ quotePlus rest

/-- Helper for `unquotePlus`, structurally recursive on a fuel argument
(starting it at the string length is always enough because every step consumes
at least one character). -/
def unquotePlusFuel : Nat → List Char → List Char
  | _, [] => []
  | 0, l => l
  | fuel + 1, c :: rest =>
      if c = '+' then ' ' :: unquotePlusFuel fuel rest
      else if c = '%' then
        match rest with
        | a :: b :: rest2 =>
            match hexVal a, hexVal b with
            | some ha, some hb => Char.ofNat (ha * 16 + hb) :: unquotePlusFuel fuel rest2
            | _, _ => c :: unquotePlusFuel fuel rest
        | _ => c :: unquotePlusFuel fuel rest
      else c :: unquotePlusFuel fuel rest

/-- Model of `urllib.parse.unquote_plus` (the decoding `parse_qsl` applies to
names and values): `+` becomes space, `%XX` becomes the coded character, an
invalid escape is left as-is. -/
def unquotePlus (l : List Char) : List Char :=
  unquotePlusFuel l.length l

/-- Split a string on a separator character; always yields at least one
(possibly empty) field. -/
def splitOnChar (sep : Char) : List Char → List (List Char)
  | [] => [[]]
  | c :: rest =>
      match splitOnChar sep rest with
      | [] => [[c]]
      | f :: fs => if c = sep then [] :: f :: fs else (c :: f) :: fs

/-- Split a field at its first `=`, like `name_value.split('=', 1)`;
`none` when the field contains no `=`. -/
def splitFirstEq : List Char → Option (List Char × List Char)
  | [] => none
  | c :: rest =>
      if c = '=' then some ([], rest)
      else
        match splitFirstEq rest with
        | none => none
        | some (n, v) => some (c :: n, v)

/-- Model of `urllib.parse.parse_qsl(query)` with the default
`keep_blank_values=False`: split on `&`, drop fields without `=` and fields
with a blank value, and percent-decode both name and value. -/
def parseQsl (q : List Char) : List (List Char × List Char) :=
  (splitOnChar '&' q).filterMap (fun field =>
    match splitFirstEq field with
    | none => none
    | some (n, v) => if v.isEmpty then none else some (unquotePlus n, unquotePlus v))

/-- `dict(pairs)[name]` as an `Option`: with duplicate names the later pair
wins, as in a Python dict built from a pair list. -/
def dictLookup (ps : List (List Char × List Char)) (name : List Char) : Option (List Char) :=
  (ps.reverse.find? (fun p => p.1 = name)).map (fun p => p.2)

/-- Model of `urllib.parse.urlencode` over an ordered pair list: percent-encode
each name and value and join `name=value` fields with `&`. -/
def urlencodePairs : List (List Char × List Char) → List Char
  | [] => []
  | [p] => quotePlus p.1 ++ '=' :: quotePlus p.2
  | p :: rest => quotePlus p.1 ++ '=' :: quotePlus p.2 ++ '&' :: urlencodePairs rest

/-! ## Cache layer (model of `cache.Cache`) -/

/-- Substring containment, Python's `needle in haystack` on strings. -/
def containsSubstr : List Char → List Char → Bool
  | needle, [] => needle.isEmpty
  | needle, c :: t => needle.isPrefixOf (c :: t) || containsSubstr needle t

/-- The literal `"HIT"` tested against the `X-Cache-Status` header. -/
def HIT_VALUE : List Char := ['H', 'I', 'T']

/-- The literal `"MISS"` used as default when the header is absent
(`r.headers.get("X-Cache-Status", "MISS")`). -/
def MISS_VALUE : List Char := ['M', 'I', 'S', 'S']

/-- Outcome of `Cache.__getitem__` on a 2xx response: `notCached` models the
raised `NotCachedException`; `value d` models a normal return, where `d = none`
models the `None` that `_extract` produces when no parseable payload is
found. -/
inductive GetOutcome where
  | notCached
  | value (d : Option (List Nat))
deriving DecidableEq

/-- Outcome of `Cache.__setitem__` on a 2xx response: `ok` models a normal
return (the write succeeded), `alreadyCached d` models the raised
`AlreadyCachedException` carrying the extracted colliding payload (`none` when
extraction failed). -/
inductive SetOutcome where
  | ok
  | alreadyCached (d : Option (List Nat))
deriving DecidableEq

/-- One iteration of the `re.finditer` loop body of `Cache._extract`, modelled
from the query string of the reflected URL onward (the regex capture, the
`urlparse` of the snip, and the server's HTML escaping cancelled by `unescape`
are abstracted into being handed the reflected query string itself):
`t = dict(parse_qsl(query)); m = t[slot]; return urlsafe_b64decode(m)`, with
the `KeyError` (missing slot) and `ValueError` (bad base64) handlers both
falling through to `none`. -/
def extractFromQuery (slot q : List Char) : Option (List Nat) :=
  match dictLookup (parseQsl q) slot with
  | none => none
  | some m => b64decode m

/-- `Cache._extract`: try each regex match in order, return the first payload
that parses; if none does, fall off the loop and return `None`. -/
def cache_extract (slot : List Char) : List (List Char) → Option (List Nat)
  | [] => none
  | q :: rest =>
      match extractFromQuery slot q with
      | some d => some d
      | none => cache_extract slot rest

/-- `Cache.__getitem__` on a 2xx response, as a function of the
`X-Cache-Status` header (absent = `none`) and the reflected query strings of
the regex matches in the body: raise `NotCachedException` unless the header
value contains `"HIT"`, otherwise return `_extract`'s result. -/
def cache_getitem (slot : List Char) (xCacheStatus : Option (List Char))
    (snips : List (List Char)) : GetOutcome :=
  if containsSubstr HIT_VALUE (xCacheStatus.getD MISS_VALUE) then
    .value (cache_extract slot snips)
  else .notCached

/-- `Cache.__setitem__` on a 2xx response: raise `AlreadyCachedException`
carrying `_extract`'s result when the header value contains `"HIT"`, otherwise
return normally (successful write). -/
def cache_setitem (slot : List Char) (xCacheStatus : Option (List Char))
    (snips : List (List Char)) : SetOutcome :=
  if containsSubstr HIT_VALUE (xCacheStatus.getD MISS_VALUE) then
    .alreadyCached (cache_extract slot snips)
  else .ok

/-- The ordered url-argument pairs built by `Cache.__setitem__` with an empty
base query: `d[self.key] = key; d[self.slot] = base64.urlsafe_b64encode(value)`. -/
def setPairs (key slot token : List Char) (value : List Nat) :
    List (List Char × List Char) :=
  [(key, token), (slot, b64encode value)]

/-- The query string `Cache.__setitem__` sends (empty base query):
`urlencode` of `setPairs`. -/
def setQuery (key slot token : List Char) (value : List Nat) : List Char :=
  urlencodePairs (setPairs key slot token value)

/-! ## Stream layer (model of `io.CacheReader` / `io.CacheWriter`) -/

/-- The destination buffer handed to `CacheReader.readinto`: either a
`bytearray` (the `io.RawIOBase` path) or a `memoryview` of fixed length (the
`io.BufferedReader` path).  Any other argument raises `ValueError` in the
source and is not modelled. -/
inductive RBuffer where
  | bytearray (contents : List Nat)
  | memoryview (contents : List Nat)
deriving DecidableEq

/-- `CacheReader.readinto(b)`.  `cache` is the oracle for `self.cache[token]`
(`GetOutcome.notCached` = `NotCachedException`); `u` models `shortuuid.uuid`;
the first `Nat` is loop fuel (`none` = fuel exhausted, the source loop is
unbounded).  On success the result is the returned byte count, the session
after the call, and the buffer contents after the call.

Faithful to the source: each probe draws `(step, token)` from the session
iterator, which advances the session *before* the outcome is seen; `if data:`
skips both `None` and empty payloads; a `memoryview` smaller than the payload
undoes the speculative advance (`self.session.step -= 1`) and returns 0; a
`NotCachedException` breaks the loop and returns 0. -/
def readinto (cache : List Char → GetOutcome) (u : List Char → List Char) :
    Nat → Session → RBuffer → Option (Nat × Session × RBuffer)
  | 0, _, _ => none
  | fuel + 1, st, b =>
      match cache (Session.token u st) with
      | .notCached => some (0, st.advance, b)
      | .value none => readinto cache u fuel st.advance b
      | .value (some d) =>
          if d.isEmpty then readinto cache u fuel st.advance b
          else
            match b with
            | .bytearray _ => some (d.length, st.advance, .bytearray d)
            | .memoryview m =>
                if m.length < d.length then
                  some (0, { st.advance with step := st.advance.step - 1 }, .memoryview m)
                else
                  some (d.length, st.advance, .memoryview (d ++ m.drop d.length))

/-- Helper for `chunksFrom`, structurally recursive on a fuel argument
(starting it at the data length is always enough because every chunk consumes
at least one byte). -/
def chunksFromFuel (csize : Nat) : Nat → List Nat → List (List Nat)
  | _, [] => []
  | 0, l => [l]
  | fuel + 1, x :: xs =>
      (x :: xs.take (csize - 1)) :: chunksFromFuel csize fuel (xs.drop (csize - 1))

/-- The chunk list built by `CacheWriter.write`'s
`for i in range(0, len(data), self.chunk_size): chunk = data[i:i+self.chunk_size]`
(faithful for `csize ≥ 1`; `csize = 0` raises `ValueError` in Python). -/
def chunksFrom (csize : Nat) (data : List Nat) : List (List Nat) :=
  chunksFromFuel csize data.length data

/-- The inner `for step, token in self.session` loop of `CacheWriter.write`
for a single chunk.  `setc` is the oracle for `self.cache[token] = chunk`;
`consumers` is `self._consumers` (identified by arbitrary tags).  On success
the result is the list of `(consumer, data)` deliveries performed by
`for func in self._consumers: func(e.data)` (note the guard `if e.data:`:
`None` and empty payloads are not delivered), the step at which the chunk was
finally written, and the session after the loop. -/
def writeChunk (setc : List Char → List Nat → SetOutcome) (u : List Char → List Char)
    (consumers : List Nat) :
    Nat → Session → List Nat → Option (List (Nat × List Nat) × Nat × Session)
  | 0, _, _ => none
  | fuel + 1, st, chunk =>
      match setc (Session.token u st) chunk with
      | .ok => some ([], st.step, st.advance)
      | .alreadyCached dOpt =>
          match writeChunk setc u consumers fuel st.advance chunk with
          | none => none
          | some (ds, k, st') =>
              some
                ((match dOpt with
                  | none => []
                  | some d => if d.isEmpty then [] else consumers.map (fun c => (c, d))) ++ ds,
                  k, st')

/-- The outer chunk loop of `CacheWriter.write`: place each chunk in turn,
accumulating the collision deliveries and the list of `(step, chunk)` pairs of
the successful `set` calls. -/
def writeChunks (setc : List Char → List Nat → SetOutcome) (u : List Char → List Char)
    (consumers : List Nat) (fuel : Nat) :
    List (List Nat) → Session →
      Option (List (Nat × List Nat) × List (Nat × List Nat) × Session)
  | [], st => some ([], [], st)
  | c :: cs, st =>
      match writeChunk setc u consumers fuel st c with
      | none => none
      | some (ds, k, st') =>
          match writeChunks setc u consumers fuel cs st' with
          | none => none
          | some (ds2, succs, st'') => some (ds ++ ds2, (k, c) :: succs, st'')

/-- `CacheWriter.write(data)`: chunk the data, write every chunk, and return
`len(data)`.  The result carries the collision deliveries, the successful
`(step, chunk)` trace, the session after the call, and the returned length. -/
def write (setc : List Char → List Nat → SetOutcome) (u : List Char → List Char)
    (consumers : List Nat) (fuel csize : Nat) (st : Session) (data : List Nat) :
    Option (List (Nat × List Nat) × List (Nat × List Nat) × Session × Nat) :=
  (writeChunks setc u consumers fuel (chunksFrom csize data) st).map
    (fun r => (r.1, r.2.1, r.2.2, data.length))

/-- A concrete set oracle for examples: a collision carrying payload `d` at the
empty token (the token of the `⟨0, 0, 2⟩` session), success at every other
token. -/
def setOracleAt0 (d : Option (List Nat)) : List Char → List Nat → SetOutcome :=
  fun t _ => if t.isEmpty then .alreadyCached d else .ok

/-! ## Helper lemmas -/

/-- `Session.__next__` increments `step` by exactly one. -/
theorem Session.advance_step (s : Session) : s.advance.step = s.step + 1 := rfl

/-- The `self.session.step -= 1` rewind undoes a single speculative advance. -/
theorem Session.rewind_advance (s : Session) :
    { s.advance with step := s.advance.step - 1 } = s := by
  cases s
  simp [Session.advance]

/-! ## Claims about the session (session.py) -/

/-- C1: token determinism and derivation.  `Session.token` equals `shortuuid`
(an arbitrary deterministic function `u`) of the alphabet encoding of
`n = (channel <<< bit_length max_step) + step % max_step`; two sessions with
equal `(port, max_step)` at the same step produce equal tokens; and the token
at `step` equals the token at `step % max_step`. -/
theorem C1_token_derivation (u : List Char → List Char) (s₁ s₂ : Session)
    (hpos : 0 < s₁.max_step) (hport : s₁.port = s₂.port)
    (hmax : s₁.max_step = s₂.max_step) (hstep : s₁.step = s₂.step) :
    Session.token u s₁ =
      u (int_to_string ((s₁.port <<< bit_length s₁.max_step) + s₁.step % s₁.max_step)
          shortuuid_alphabet) ∧
    Session.token u s₁ = Session.token u s₂ ∧
    Session.token u { s₁ with step := s₁.step % s₁.max_step } = Session.token u s₁ := by
  refine ⟨rfl, ?_, ?_⟩
  · unfold Session.token Session.tokenName
    rw [hport, hmax, hstep]
  · unfold Session.token Session.tokenName
    simp

/-- C1 witness: the token equations evaluated at `port = 5`, `step = 7`,
`max_step = 3`, with the identity standing in for `shortuuid.uuid`. -/
theorem C1_token_derivation_witness :
    0 < (3 : Nat) ∧
      (Session.token (fun s => s) ⟨5, 7, 3⟩ =
          (fun s => s)
            (int_to_string ((5 <<< bit_length 3) + 7 % 3) shortuuid_alphabet) ∧
        Session.token (fun s => s) ⟨5, 7, 3⟩ = Session.token (fun s => s) ⟨5, 7, 3⟩ ∧
        Session.token (fun s => s) ⟨5, 7 % 3, 3⟩ = Session.token (fun s => s) ⟨5, 7, 3⟩) :=
  ⟨by decide, C1_token_derivation (fun s => s) ⟨5, 7, 3⟩ ⟨5, 7, 3⟩ (by decide) rfl rfl rfl⟩

/-! ## Claims about the reader (io.py, CacheReader.readinto) -/

/-- C2 counterexample: with the cache reporting MISS at every token, a reader
starting at step 0 gets back 0 bytes but stands at step 1 afterwards — not at
step 0, the step at which the MISS occurred, as the claim states. -/
theorem C2_counterexample :
    readinto (fun _ => GetOutcome.notCached) (fun s => s) 1 ⟨1, 0, 0xffff⟩
        (.bytearray []) =
      some (0, ⟨1, 1, 0xffff⟩, .bytearray []) ∧ (1 : Nat) ≠ 0 :=
  ⟨rfl, by decide⟩

/-- C2 (amended): when the cache reports MISS at the token for the session's
current step `k`, `readinto` returns 0 and the session stands at `k + 1` — the
iterator's speculative advance is kept, so a subsequent read probes the next
token, not the same one. -/
theorem C2_miss_stops_after_advance (cache : List Char → GetOutcome)
    (u : List Char → List Char) (fuel : Nat) (st : Session) (b : RBuffer)
    (h : cache (Session.token u st) = .notCached) :
    readinto cache u (fuel + 1) st b = some (0, st.advance, b) ∧
      st.advance.step = st.step + 1 :=
  ⟨by simp [readinto, h], rfl⟩

/-- C2 witness: the amended statement evaluated on a concrete all-MISS cache. -/
theorem C2_miss_stops_after_advance_witness :
    (fun _ => GetOutcome.notCached) (Session.token (fun s => s) ⟨2, 5, 7⟩) =
        GetOutcome.notCached ∧
      (readinto (fun _ => GetOutcome.notCached) (fun s => s) 4 ⟨2, 5, 7⟩
            (.memoryview [0]) =
          some (0, Session.advance ⟨2, 5, 7⟩, .memoryview [0]) ∧
        (Session.advance ⟨2, 5, 7⟩).step = (⟨2, 5, 7⟩ : Session).step + 1) :=
  ⟨rfl, C2_miss_stops_after_advance _ _ 3 _ _ rfl⟩

/-- C3: size-gated rewind.  If the cached payload `d` at the session's current
token is longer than the `memoryview` destination `m`, `readinto` returns 0,
writes nothing into the buffer, and hands back the session exactly as it was
before the call (the speculative advance is undone by the single rewind). -/
theorem C3_small_memoryview_rewinds (cache : List Char → GetOutcome)
    (u : List Char → List Char) (fuel : Nat) (st : Session) (m d : List Nat)
    (h : cache (Session.token u st) = .value (some d)) (hlen : m.length < d.length) :
    readinto cache u (fuel + 1) st (.memoryview m) = some (0, st, .memoryview m) := by
  have hne : d.isEmpty = false := by
    cases d
    · simp at hlen
    · rfl
  cases st
  simp [readinto, h, hne, hlen, Session.advance]

/-- C3 witness: a 3-byte payload against a 1-byte memoryview. -/
theorem C3_small_memoryview_rewinds_witness :
    (fun _ => GetOutcome.value (some [10, 11, 12]))
        (Session.token (fun s => s) ⟨2, 5, 7⟩) = .value (some [10, 11, 12]) ∧
      ([0] : List Nat).length < ([10, 11, 12] : List Nat).length ∧
      readinto (fun _ => GetOutcome.value (some [10, 11, 12])) (fun s => s) 4
          ⟨2, 5, 7⟩ (.memoryview [0]) =
        some (0, ⟨2, 5, 7⟩, .memoryview [0]) :=
  ⟨rfl, by decide, C3_small_memoryview_rewinds _ _ 3 _ _ _ rfl (by decide)⟩

/-- C9: a HIT whose extracted payload is `None` or empty is neither returned
nor treated as end-of-stack: `readinto` leaves the session advanced past that
token and continues the loop at the next token. -/
theorem C9_empty_payload_skipped (cache : List Char → GetOutcome)
    (u : List Char → List Char) (fuel : Nat) (st : Session) (b : RBuffer)
    (h : cache (Session.token u st) = .value none ∨
      cache (Session.token u st) = .value (some [])) :
    readinto cache u (fuel + 1) st b = readinto cache u fuel st.advance b ∧
      st.advance.step = st.step + 1 := by
  rcases h with h | h <;> exact ⟨by simp [readinto, h], rfl⟩

/-- C9 witness: a cache with a `None` payload at step 0, an empty payload at
step 1 and data at step 2; the reader skips both degenerate entries and
returns the step-2 data. -/
theorem C9_empty_payload_skipped_witness :
    ((fun t => if t = Session.tokenName ⟨0, 0, 4⟩ then GetOutcome.value none
        else GetOutcome.value (some [7]))
          (Session.token (fun s => s) ⟨0, 0, 4⟩) = GetOutcome.value none ∨
      (fun t => if t = Session.tokenName ⟨0, 0, 4⟩ then GetOutcome.value none
        else GetOutcome.value (some [7]))
          (Session.token (fun s => s) ⟨0, 0, 4⟩) = GetOutcome.value (some [])) ∧
      (readinto
            (fun t => if t = Session.tokenName ⟨0, 0, 4⟩ then GetOutcome.value none
              else GetOutcome.value (some [7]))
            (fun s => s) 3 ⟨0, 0, 4⟩ (.bytearray []) =
          readinto
            (fun t => if t = Session.tokenName ⟨0, 0, 4⟩ then GetOutcome.value none
              else GetOutcome.value (some [7]))
            (fun s => s) 2 (Session.advance ⟨0, 0, 4⟩) (.bytearray []) ∧
        (Session.advance ⟨0, 0, 4⟩).step = (⟨0, 0, 4⟩ : Session).step + 1) :=
  ⟨Or.inl (by decide), C9_empty_payload_skipped _ _ 2 _ _ (Or.inl (by decide))⟩

/-- C10: on the `bytearray` path, a non-empty payload `d` replaces the
buffer's entire contents regardless of its prior length — no truncation and no
size-gated rewind — the session is advanced, and `len(d)` is returned. -/
theorem C10_bytearray_replaced (cache : List Char → GetOutcome)
    (u : List Char → List Char) (fuel : Nat) (st : Session) (prior d : List Nat)
    (h : cache (Session.token u st) = .value (some d)) (hne : d ≠ []) :
    readinto cache u (fuel + 1) st (.bytearray prior) =
      some (d.length, st.advance, .bytearray d) := by
  have hd : d.isEmpty = false := by
    cases d
    · exact absurd rfl hne
    · rfl
  simp [readinto, h, hd]

/-- C10 witness: a 2-byte payload replacing a longer prior buffer. -/
theorem C10_bytearray_replaced_witness :
    (fun _ => GetOutcome.value (some [1, 2]))
        (Session.token (fun s => s) ⟨2, 5, 7⟩) = .value (some [1, 2]) ∧
      ([1, 2] : List Nat) ≠ [] ∧
      readinto (fun _ => GetOutcome.value (some [1, 2])) (fun s => s) 4 ⟨2, 5, 7⟩
          (.bytearray [9, 9, 9, 9, 9]) =
        some (2, Session.advance ⟨2, 5, 7⟩, .bytearray [1, 2]) :=
  ⟨rfl, by decide, C10_bytearray_replaced _ _ 3 _ [9, 9, 9, 9, 9] [1, 2] rfl (by decide)⟩

/-! ## Claims about the writer (io.py, CacheWriter.write) -/

/-- Concatenating the chunks gives back the data (fuelled helper form). -/
theorem chunksFromFuel_flatten (csize : Nat) :
    ∀ fuel l, l.length ≤ fuel → (chunksFromFuel csize fuel l).flatten = l := by
  intro fuel
  induction fuel with
  | zero =>
      intro l h
      cases l with
      | nil => rfl
      | cons x xs => simp at h
  | succ n ih =>
      intro l h
      cases l with
      | nil => rfl
      | cons x xs =>
          have hlen : (xs.drop (csize - 1)).length ≤ n := by
            have := List.length_drop (csize - 1) xs
            simp at h
            omega
          simp only [chunksFromFuel, List.flatten_cons, ih _ hlen]
          simp [List.take_append_drop]

/-- Concatenating the chunks gives back the data. -/
theorem chunksFrom_flatten (csize : Nat) (data : List Nat) :
    (chunksFrom csize data).flatten = data :=
  chunksFromFuel_flatten csize data.length data le_rfl

/-- Every chunk has at most `csize` bytes (fuelled helper form). -/
theorem chunksFromFuel_le (csize : Nat) (hc : 0 < csize) :
    ∀ fuel l, l.length ≤ fuel → ∀ c ∈ chunksFromFuel csize fuel l, c.length ≤ csize := by
  intro fuel
  induction fuel with
  | zero =>
      intro l h c hc'
      cases l with
      | nil => simp [chunksFromFuel] at hc'
      | cons x xs => simp at h
  | succ n ih =>
      intro l h c hc'
      cases l with
      | nil => simp [chunksFromFuel] at hc'
      | cons x xs =>
          have hlen : (xs.drop (csize - 1)).length ≤ n := by
            have := List.length_drop (csize - 1) xs
            simp at h
            omega
          simp only [chunksFromFuel, List.mem_cons] at hc'
          rcases hc' with rfl | hc'
          · simp
            omega
          · exact ih _ hlen c hc'

/-- Every chunk has at most `csize` bytes. -/
theorem chunksFrom_le (csize : Nat) (hc : 0 < csize) (data : List Nat) :
    ∀ c ∈ chunksFrom csize data, c.length ≤ csize :=
  chunksFromFuel_le csize hc data.length data le_rfl

/-- There are exactly `⌈len/csize⌉` chunks (fuelled helper form). -/
theorem chunksFromFuel_length (csize : Nat) (hc : 0 < csize) :
    ∀ fuel l, l.length ≤ fuel →
      (chunksFromFuel csize fuel l).length = (l.length + csize - 1) / csize := by
  intro fuel
  induction fuel with
  | zero =>
      intro l h
      cases l with
      | nil =>
          simp [chunksFromFuel]
          rw [Nat.div_eq_of_lt]
          omega
      | cons x xs => simp at h
  | succ n ih =>
      intro l h
      cases l with
      | nil =>
          simp [chunksFromFuel]
          rw [Nat.div_eq_of_lt]
          omega
      | cons x xs =>
          have hlen : (xs.drop (csize - 1)).length ≤ n := by
            have := List.length_drop (csize - 1) xs
            simp at h
            omega
          simp only [chunksFromFuel, List.length_cons, ih _ hlen, List.length_drop]
          rcases Nat.lt_or_ge xs.length (csize - 1) with hlt | hge
          · have h1 : xs.length - (csize - 1) = 0 := by omega
            have h2 : xs.length + 1 + csize - 1 = xs.length + csize := by omega
            rw [h1, h2, Nat.add_div_right _ hc, Nat.div_eq_of_lt (by omega),
              Nat.div_eq_of_lt (by omega)]
          · have h1 : xs.length - (csize - 1) + csize - 1 = xs.length := by omega
            have h2 : xs.length + 1 + csize - 1 = xs.length + csize := by omega
            rw [h1, h2, Nat.add_div_right _ hc]

/-- There are exactly `⌈len/csize⌉` chunks. -/
theorem chunksFrom_length (csize : Nat) (hc : 0 < csize) (data : List Nat) :
    (chunksFrom csize data).length = (data.length + csize - 1) / csize :=
  chunksFromFuel_length csize hc data.length data le_rfl

/-- A successful `writeChunk` lands at a step at least the starting step, and
leaves the session one past the step of the successful `set`. -/
theorem writeChunk_step (setc : List Char → List Nat → SetOutcome)
    (u : List Char → List Char) (consumers : List Nat) :
    ∀ fuel st chunk ds k st',
      writeChunk setc u consumers fuel st chunk = some (ds, k, st') →
      st.step ≤ k ∧ st'.step = k + 1 := by
  intro fuel
  induction fuel with
  | zero =>
      intro st chunk ds k st' h
      simp [writeChunk] at h
  | succ n ih =>
      intro st chunk ds k st' h
      rw [writeChunk] at h
      cases hset : setc (Session.token u st) chunk with
      | ok =>
          rw [hset] at h
          simp only [Option.some.injEq, Prod.mk.injEq] at h
          obtain ⟨-, hk, hst⟩ := h
          subst hk
          subst hst
          exact ⟨le_rfl, rfl⟩
      | alreadyCached dOpt =>
          rw [hset] at h
          cases hrec : writeChunk setc u consumers n st.advance chunk with
          | none => rw [hrec] at h; simp at h
          | some r =>
              obtain ⟨ds1, k1, st1⟩ := r
              rw [hrec] at h
              simp only [Option.some.injEq, Prod.mk.injEq] at h
              obtain ⟨-, hk, hst⟩ := h
              subst hk
              subst hst
              obtain ⟨h1, h2⟩ := ih st.advance chunk ds1 k1 st1 hrec
              exact ⟨le_trans (Nat.le_succ _) h1, h2⟩

/-- A successful `writeChunks` run records the chunk list in order, at strictly
increasing steps all at least the starting step. -/
theorem writeChunks_spec (setc : List Char → List Nat → SetOutcome)
    (u : List Char → List Char) (consumers : List Nat) (fuel : Nat) :
    ∀ cs st ds succs st',
      writeChunks setc u consumers fuel cs st = some (ds, succs, st') →
      succs.map Prod.snd = cs ∧
      (∀ q ∈ succs, st.step ≤ q.1) ∧
      List.Pairwise (fun a b => a < b) (succs.map Prod.fst) ∧
      st.step ≤ st'.step := by
  intro cs
  induction cs with
  | nil =>
      intro st ds succs st' h
      simp only [writeChunks, Option.some.injEq, Prod.mk.injEq] at h
      obtain ⟨-, hs, hst⟩ := h
      subst hs
      subst hst
      simp
  | cons c cs ih =>
      intro st ds succs st' h
      rw [writeChunks] at h
      cases h1 : writeChunk setc u consumers fuel st c with
      | none => rw [h1] at h; simp at h
      | some r =>
          obtain ⟨ds1, k, st1⟩ := r
          rw [h1] at h
          dsimp only at h
          cases h2 : writeChunks setc u consumers fuel cs st1 with
          | none => rw [h2] at h; simp at h
          | some r2 =>
              obtain ⟨ds2, succs2, st2⟩ := r2
              rw [h2] at h
              simp only [Option.some.injEq, Prod.mk.injEq] at h
              obtain ⟨-, hs, hst⟩ := h
              subst hs
              subst hst
              obtain ⟨hk1, hk2⟩ := writeChunk_step setc u consumers fuel st c ds1 k st1 h1
              obtain ⟨hmap, hmem, hpw, hle⟩ := ih st1 ds2 succs2 st2 h2
              refine ⟨by simp [hmap], ?_, ?_, ?_⟩
              · intro q hq
                rcases List.mem_cons.mp hq with rfl | hq
                · exact hk1
                · have := hmem q hq
                  omega
              · rw [List.map_cons]
                refine List.pairwise_cons.mpr ⟨?_, hpw⟩
                intro b hb
                obtain ⟨q, hq, rfl⟩ := List.mem_map.mp hb
                have := hmem q hq
                omega
              · omega

/-- C5 counterexample: the colliding value `b""` (empty bytes) is delivered to
no subscriber.  With one registered consumer (tag 0) and a collision at step 0
carrying the empty payload, the writer retries and succeeds at step 1, but the
delivery list is empty — consumer 0 never receives the colliding value. -/
theorem C5_counterexample :
    writeChunk (setOracleAt0 (some [])) (fun s => s) [0] 2 ⟨0, 0, 2⟩ [5] =
      some ([], 1, ⟨0, 2, 2⟩) ∧
    ¬ ((0, ([] : List Nat)) ∈ ([] : List (Nat × List Nat))) :=
  ⟨rfl, by simp⟩

/-- C5 (amended): when `set` at the current token reports `AlreadyCached(v')`
with a non-empty `v'`, the writer delivers `v'` to every registered collision
subscriber, advances the session, and retries the same chunk at the next
token; a colliding value that is `None` or empty is not delivered (the
`if e.data:` guard), though the advance-and-retry still happens. -/
theorem C5_collision_delivery (setc : List Char → List Nat → SetOutcome)
    (u : List Char → List Char) (consumers : List Nat) (fuel : Nat) (st : Session)
    (chunk v : List Nat)
    (hcoll : setc (Session.token u st) chunk = .alreadyCached (some v)) (hv : v ≠ []) :
    writeChunk setc u consumers (fuel + 1) st chunk =
      (writeChunk setc u consumers fuel st.advance chunk).map
        (fun r => (consumers.map (fun c => (c, v)) ++ r.1, r.2)) ∧
    st.advance.step = st.step + 1 := by
  have hne : v.isEmpty = false := by
    cases v
    · exact absurd rfl hv
    · rfl
  refine ⟨?_, rfl⟩
  rw [writeChunk, hcoll]
  cases writeChunk setc u consumers fuel st.advance chunk with
  | none => rfl
  | some r =>
      obtain ⟨ds, k, st'⟩ := r
      dsimp only
      rw [hne]
      rfl

/-- C5 witness: a collision carrying `b"\x09"` at step 0; the single
registered consumer (tag 3) receives it and the chunk is retried at step 1. -/
theorem C5_collision_delivery_witness :
    setOracleAt0 (some [9]) (Session.token (fun s => s) ⟨0, 0, 2⟩) [5] =
        SetOutcome.alreadyCached (some [9]) ∧
      ([9] : List Nat) ≠ [] ∧
      (writeChunk (setOracleAt0 (some [9])) (fun s => s) [3] (1 + 1) ⟨0, 0, 2⟩ [5] =
          (writeChunk (setOracleAt0 (some [9])) (fun s => s) [3] 1
              (Session.advance ⟨0, 0, 2⟩) [5]).map
            (fun r => ([3].map (fun c => (c, ([9] : List Nat))) ++ r.1, r.2)) ∧
        (Session.advance ⟨0, 0, 2⟩).step = (⟨0, 0, 2⟩ : Session).step + 1) :=
  ⟨rfl, by decide, C5_collision_delivery _ _ [3] 1 _ [5] [9] rfl (by decide)⟩

/-- C7: chunking and return value.  A completed `CacheWriter.write` partitions
the data into `⌈len/csize⌉` consecutive chunks of at most `csize` bytes whose
concatenation is the data, records the successful `set` calls exactly as that
chunk sequence in input order at strictly increasing steps (all at least the
starting step), and returns `len(data)`. -/
theorem C7_chunking (setc : List Char → List Nat → SetOutcome)
    (u : List Char → List Char) (consumers : List Nat) (fuel csize : Nat)
    (st : Session) (data : List Nat) (ds succs : List (Nat × List Nat))
    (st' : Session) (r : Nat) (hc : 0 < csize)
    (h : write setc u consumers fuel csize st data = some (ds, succs, st', r)) :
    r = data.length ∧
    succs.map Prod.snd = chunksFrom csize data ∧
    (chunksFrom csize data).flatten = data ∧
    (∀ c ∈ chunksFrom csize data, c.length ≤ csize) ∧
    (chunksFrom csize data).length = (data.length + csize - 1) / csize ∧
    List.Pairwise (fun a b => a < b) (succs.map Prod.fst) ∧
    (∀ q ∈ succs, st.step ≤ q.1) := by
  rw [write] at h
  cases hw : writeChunks setc u consumers fuel (chunksFrom csize data) st with
  | none => rw [hw] at h; simp at h
  | some w =>
      obtain ⟨dsw, succsw, stw⟩ := w
      rw [hw] at h
      simp only [Option.map_some', Option.some.injEq, Prod.mk.injEq] at h
      obtain ⟨-, hsuccs, -, hr⟩ := h
      subst hsuccs
      subst hr
      obtain ⟨hmap, hmem, hpw, -⟩ :=
        writeChunks_spec setc u consumers fuel (chunksFrom csize data) st dsw succsw stw hw
      exact ⟨rfl, hmap, chunksFrom_flatten csize data, chunksFrom_le csize hc data,
        chunksFrom_length csize hc data, hpw, hmem⟩

/-- C7 witness: 5 bytes written with `chunk_size = 2` over an all-success
oracle: three `set` calls at steps 0, 1, 2 with chunks of sizes 2, 2, 1 in
input order, and 5 returned. -/
theorem C7_chunking_witness :
    0 < 2 ∧
      write (fun _ _ => SetOutcome.ok) (fun s => s) [] 9 2 ⟨0, 0, 4⟩ [1, 2, 3, 4, 5] =
        some ([], [(0, [1, 2]), (1, [3, 4]), (2, [5])], ⟨0, 3, 4⟩, 5) ∧
      (5 = ([1, 2, 3, 4, 5] : List Nat).length ∧
        ([(0, [1, 2]), (1, [3, 4]), (2, [5])] : List (Nat × List Nat)).map Prod.snd =
          chunksFrom 2 [1, 2, 3, 4, 5] ∧
        (chunksFrom 2 [1, 2, 3, 4, 5]).flatten = [1, 2, 3, 4, 5] ∧
        (∀ c ∈ chunksFrom 2 [1, 2, 3, 4, 5], c.length ≤ 2) ∧
        (chunksFrom 2 [1, 2, 3, 4, 5]).length =
          (([1, 2, 3, 4, 5] : List Nat).length + 2 - 1) / 2 ∧
        List.Pairwise (fun a b => a < b)
          (([(0, [1, 2]), (1, [3, 4]), (2, [5])] : List (Nat × List Nat)).map Prod.fst) ∧
        (∀ q ∈ ([(0, [1, 2]), (1, [3, 4]), (2, [5])] : List (Nat × List Nat)),
          (⟨0, 0, 4⟩ : Session).step ≤ q.1)) :=
  ⟨by decide, rfl,
    C7_chunking (fun _ _ => SetOutcome.ok) (fun s => s) [] 9 2 ⟨0, 0, 4⟩
      [1, 2, 3, 4, 5] [] [(0, [1, 2]), (1, [3, 4]), (2, [5])] ⟨0, 3, 4⟩ 5
      (by decide) rfl⟩

/-! ## Claims about the cache layer (cache.py) -/

/-- C8: HIT/MISS classification on 2xx responses.  `__getitem__` raises
`NotCachedException` exactly when the `X-Cache-Status` value (default `"MISS"`
when the header is absent) does not contain the substring `"HIT"`, and
otherwise proceeds to extraction; `__setitem__` raises
`AlreadyCachedException` exactly when that value does contain `"HIT"`, and
otherwise returns as a successful write; a missing header counts as MISS. -/
theorem C8_hit_miss_classification (slot : List Char) (v : Option (List Char))
    (snips : List (List Char)) :
    (cache_getitem slot v snips = .notCached ↔
      containsSubstr HIT_VALUE (v.getD MISS_VALUE) = false) ∧
    ((∃ d, cache_setitem slot v snips = .alreadyCached d) ↔
      containsSubstr HIT_VALUE (v.getD MISS_VALUE) = true) ∧
    cache_getitem slot none snips = .notCached ∧
    (containsSubstr HIT_VALUE (v.getD MISS_VALUE) = true →
      cache_getitem slot v snips = .value (cache_extract slot snips)) ∧
    (containsSubstr HIT_VALUE (v.getD MISS_VALUE) = false →
      cache_setitem slot v snips = .ok) := by
  have hmiss : containsSubstr HIT_VALUE MISS_VALUE = false := by decide
  by_cases h : containsSubstr HIT_VALUE (v.getD MISS_VALUE) = true
  · refine ⟨?_, ?_, ?_, ?_, ?_⟩ <;>
      simp [cache_getitem, cache_setitem, h, hmiss]
  · have h' : containsSubstr HIT_VALUE (v.getD MISS_VALUE) = false := by
      simpa using h
    refine ⟨?_, ?_, ?_, ?_, ?_⟩ <;>
      simp [cache_getitem, cache_setitem, h', hmiss]

/-- C8 witness: the classification evaluated at a concrete upstream-style
header value `"HIT from edge"`. -/
theorem C8_hit_miss_classification_witness :
    (cache_getitem ['p'] (some "HIT from edge".toList) [] = .notCached ↔
      containsSubstr HIT_VALUE ((some "HIT from edge".toList).getD MISS_VALUE) = false) ∧
    ((∃ d, cache_setitem ['p'] (some "HIT from edge".toList) [] = .alreadyCached d) ↔
      containsSubstr HIT_VALUE ((some "HIT from edge".toList).getD MISS_VALUE) = true) ∧
    cache_getitem ['p'] none [] = .notCached ∧
    (containsSubstr HIT_VALUE ((some "HIT from edge".toList).getD MISS_VALUE) = true →
      cache_getitem ['p'] (some "HIT from edge".toList) [] =
        .value (cache_extract ['p'] [])) ∧
    (containsSubstr HIT_VALUE ((some "HIT from edge".toList).getD MISS_VALUE) = false →
      cache_setitem ['p'] (some "HIT from edge".toList) [] = .ok) :=
  C8_hit_miss_classification ['p'] (some "HIT from edge".toList) []

/-- C6 counterexample: a HIT response with no parseable reflected payload (no
regex match at all) makes `__getitem__` return `None` — a normal return with
no data — whereas an uncached token raises `NotCachedException`.  The two
outcomes differ, so extraction failure is NOT "the same outcome as an uncached
token". -/
theorem C6_counterexample :
    cache_getitem ['p'] (some HIT_VALUE) [] = .value none ∧
    cache_getitem ['p'] (some MISS_VALUE) [] = .notCached ∧
    GetOutcome.value none ≠ GetOutcome.notCached :=
  ⟨rfl, rfl, by simp⟩

/-- C6 (amended): on a response classified as cached (HIT) whose body yields
no parseable reflected payload, `__getitem__` returns `None` — it neither
returns decoded bytes nor raises a fatal error, but it also does not raise the
`NotCachedException` MISS signal that an uncached token produces; callers see
an absent payload (and the reader skips the token) rather than MISS. -/
theorem C6_extraction_failure_returns_none (slot v : List Char)
    (snips : List (List Char)) (hhit : containsSubstr HIT_VALUE v = true)
    (hfail : cache_extract slot snips = none) :
    cache_getitem slot (some v) snips = .value none ∧
      cache_getitem slot (some v) snips ≠ .notCached := by
  simp [cache_getitem, hhit, hfail]

/-- C6 witness: header `"HIT"`, one regex match whose query carries the slot
value `"QUJ"` — valid alphabet characters but invalid base64 padding
(`binascii.Error`, a `ValueError`), so extraction fails and `None` is
returned. -/
theorem C6_extraction_failure_returns_none_witness :
    containsSubstr HIT_VALUE "HIT".toList = true ∧
      cache_extract ['p'] ["p=QUJ".toList] = none ∧
      (cache_getitem ['p'] (some "HIT".toList) ["p=QUJ".toList] = .value none ∧
        cache_getitem ['p'] (some "HIT".toList) ["p=QUJ".toList] ≠ .notCached) :=
  ⟨by decide, by decide,
    C6_extraction_failure_returns_none ['p'] "HIT".toList ["p=QUJ".toList]
      (by decide) (by decide)⟩

/-! ## Base64 round-trip lemmas -/

/-- A non-empty list is not `isEmpty`. -/
theorem isEmpty_false_of_ne_nil {α : Type} {l : List α} (h : l ≠ []) :
    l.isEmpty = false := by
  cases l
  · exact absurd rfl h
  · rfl

/-- Decoding a sextet character recovers its value. -/
theorem b64index_b64char : ∀ n, n < 64 → b64index (b64char n) = some n := by decide

/-- Alphabet characters are never the padding character. -/
theorem b64char_ne_pad : ∀ n, n < 64 → b64char n ≠ '=' := by decide

/-- Alphabet characters survive the decoder's junk filter. -/
theorem b64KeepChar_b64char : ∀ n, n < 64 → b64KeepChar (b64char n) = true := by decide

/-- Alphabet characters are ASCII. -/
theorem b64char_ascii : ∀ n, n < 64 → (b64char n).toNat < 256 := by decide

/-- Every character of an encoded byte string survives the junk filter. -/
theorem b64encode_all_keep : ∀ b : List Nat, (∀ x ∈ b, x < 256) →
    ∀ c ∈ b64encode b, b64KeepChar c = true
  | [], _ => by simp [b64encode]
  | [x], h => by
      have hx : x < 256 := h x (by simp)
      intro c hc
      simp only [b64encode, List.mem_cons, List.not_mem_nil, or_false] at hc
      rcases hc with rfl | rfl | rfl | rfl
      · exact b64KeepChar_b64char _ (by omega)
      · exact b64KeepChar_b64char _ (by omega)
      · decide
      · decide
  | [x, y], h => by
      have hx : x < 256 := h x (by simp)
      have hy : y < 256 := h y (by simp)
      intro c hc
      simp only [b64encode, List.mem_cons, List.not_mem_nil, or_false] at hc
      rcases hc with rfl | rfl | rfl | rfl
      · exact b64KeepChar_b64char _ (by omega)
      · exact b64KeepChar_b64char _ (by omega)
      · exact b64KeepChar_b64char _ (by omega)
      · decide
  | x :: y :: z :: rest, h => by
      have hx : x < 256 := h x (by simp)
      have hy : y < 256 := h y (by simp)
      have hz : z < 256 := h z (by simp)
      have ih := b64encode_all_keep rest (fun a ha => h a (by simp [ha]))
      intro c hc
      simp only [b64encode, List.mem_cons] at hc
      rcases hc with rfl | rfl | rfl | rfl | hc
      · exact b64KeepChar_b64char _ (by omega)
      · exact b64KeepChar_b64char _ (by omega)
      · exact b64KeepChar_b64char _ (by omega)
      · exact b64KeepChar_b64char _ (by omega)
      · exact ih c hc

/-- Every character of an encoded byte string is ASCII. -/
theorem b64encode_ascii : ∀ b : List Nat, (∀ x ∈ b, x < 256) →
    ∀ c ∈ b64encode b, c.toNat < 256
  | [], _ => by simp [b64encode]
  | [x], h => by
      have hx : x < 256 := h x (by simp)
      intro c hc
      simp only [b64encode, List.mem_cons, List.not_mem_nil, or_false] at hc
      rcases hc with rfl | rfl | rfl | rfl
      · exact b64char_ascii _ (by omega)
      · exact b64char_ascii _ (by omega)
      · decide
      · decide
  | [x, y], h => by
      have hx : x < 256 := h x (by simp)
      have hy : y < 256 := h y (by simp)
      intro c hc
      simp only [b64encode, List.mem_cons, List.not_mem_nil, or_false] at hc
      rcases hc with rfl | rfl | rfl | rfl
      · exact b64char_ascii _ (by omega)
      · exact b64char_ascii _ (by omega)
      · exact b64char_ascii _ (by omega)
      · decide
  | x :: y :: z :: rest, h => by
      have hx : x < 256 := h x (by simp)
      have hy : y < 256 := h y (by simp)
      have hz : z < 256 := h z (by simp)
      have ih := b64encode_ascii rest (fun a ha => h a (by simp [ha]))
      intro c hc
      simp only [b64encode, List.mem_cons] at hc
      rcases hc with rfl | rfl | rfl | rfl | hc
      · exact b64char_ascii _ (by omega)
      · exact b64char_ascii _ (by omega)
      · exact b64char_ascii _ (by omega)
      · exact b64char_ascii _ (by omega)
      · exact b64encode_ascii rest (fun a ha => h a (by simp [ha])) c hc

/-- Encoding a non-empty byte string yields a non-empty character string. -/
theorem b64encode_ne_nil : ∀ b : List Nat, b ≠ [] → b64encode b ≠ []
  | [], h => absurd rfl h
  | [_], _ => by simp [b64encode]
  | [_, _], _ => by simp [b64encode]
  | _ :: _ :: _ :: _, _ => by simp [b64encode]

/-- The strict decoder core inverts the encoder on byte strings. -/
theorem b64decodeCore_encode : ∀ b : List Nat, (∀ x ∈ b, x < 256) →
    b64decodeCore (b64encode b) = some b
  | [], _ => rfl
  | [x], h => by
      have hx : x < 256 := h x (by simp)
      have h1 : x / 4 < 64 := by omega
      have h2 : x % 4 * 16 < 64 := by omega
      simp only [b64encode, b64decodeCore, b64index_b64char _ h1, b64index_b64char _ h2]
      simp only [List.isEmpty_nil, Bool.and_true, Bool.and_self]
      norm_num
      omega
  | [x, y], h => by
      have hx : x < 256 := h x (by simp)
      have hy : y < 256 := h y (by simp)
      have h1 : x / 4 < 64 := by omega
      have h2 : x % 4 * 16 + y / 16 < 64 := by omega
      have h3 : y % 16 * 4 < 64 := by omega
      have hne : (b64char (y % 16 * 4) = '=') = False := by
        simp [b64char_ne_pad _ h3]
      simp only [b64encode, b64decodeCore, b64index_b64char _ h1, b64index_b64char _ h2,
        b64index_b64char _ h3, hne]
      simp only [List.isEmpty_nil, decide_False, Bool.false_and, Bool.and_true, if_false]
      norm_num
      constructor
      · omega
      · omega
  | x :: y :: z :: rest, h => by
      have hx : x < 256 := h x (by simp)
      have hy : y < 256 := h y (by simp)
      have hz : z < 256 := h z (by simp)
      have ih := b64decodeCore_encode rest (fun a ha => h a (by simp [ha]))
      have h1 : x / 4 < 64 := by omega
      have h2 : x % 4 * 16 + y / 16 < 64 := by omega
      have h3 : y % 16 * 4 + z / 64 < 64 := by omega
      have h4 : z % 64 < 64 := by omega
      have hne3 : (b64char (y % 16 * 4 + z / 64) = '=') = False := by
        simp [b64char_ne_pad _ h3]
      have hne4 : (b64char (z % 64) = '=') = False := by
        simp [b64char_ne_pad _ h4]
      simp only [b64encode, b64decodeCore, b64index_b64char _ h1, b64index_b64char _ h2,
        b64index_b64char _ h3, b64index_b64char _ h4, hne3, hne4, ih]
      simp only [decide_False, Bool.false_and, Bool.and_false, if_false, Option.map_some']
      norm_num
      refine ⟨by omega, by omega, by omega⟩

/-- C4's data-level law: the urlsafe base64 decoding applied by the extractor
inverts the urlsafe base64 encoding applied by `__setitem__`, on every byte
string. -/
theorem b64_roundtrip (b : List Nat) (h : ∀ x ∈ b, x < 256) :
    b64decode (b64encode b) = some b := by
  rw [b64decode, List.filter_eq_self.mpr (b64encode_all_keep b h)]
  exact b64decodeCore_encode b h

/-! ## Percent-encoding and query-string round-trip lemmas -/

/-- Decoding an upper-case hex digit recovers its value. -/
theorem hexVal_hexDigit : ∀ n, n < 16 → hexVal (hexDigit n) = some n := by decide

/-- A safe character is none of the query-string metacharacters. -/
theorem safe_not_special (c : Char) (h : isUrlSafeChar c = true) :
    c ≠ '%' ∧ c ≠ '+' ∧ c ≠ '=' ∧ c ≠ '&' := by
  refine ⟨?_, ?_, ?_, ?_⟩ <;> (rintro rfl; revert h; decide)

/-- Hex digits are neither `&` nor `=`. -/
theorem hexDigit_not_special (n : Nat) : hexDigit n ≠ '&' ∧ hexDigit n ≠ '=' := by
  rcases Nat.lt_or_ge n 16 with h | h
  · revert h
    revert n
    decide
  · rw [hexDigit, List.getD_eq_default]
    · decide
    · simpa using h

/-- No character of a percent-encoded string is `&` or `=`. -/
theorem quotePlus_mem : ∀ s : List Char, ∀ c ∈ quotePlus s, c ≠ '&' ∧ c ≠ '=' := by
  intro s
  induction s with
  | nil => simp [quotePlus]
  | cons a rest ih =>
      intro c hc
      rw [quotePlus] at hc
      rcases List.mem_append.mp hc with hc | hc
      · rw [quoteChar] at hc
        by_cases hsafe : isUrlSafeChar a = true
        · rw [if_pos hsafe] at hc
          simp only [List.mem_singleton] at hc
          rw [hc]
          obtain ⟨-, -, h3, h4⟩ := safe_not_special a hsafe
          exact ⟨h4, h3⟩
        · rw [if_neg hsafe] at hc
          by_cases hsp : a = ' '
          · rw [if_pos hsp] at hc
            simp only [List.mem_singleton] at hc
            rw [hc]
            decide
          · rw [if_neg hsp] at hc
            simp only [List.mem_cons, List.not_mem_nil, or_false] at hc
            rcases hc with rfl | rfl | rfl
            · decide
            · exact hexDigit_not_special _
            · exact hexDigit_not_special _
      · exact ih c hc

/-- Percent-encoding a non-empty string yields a non-empty string. -/
theorem quotePlus_ne_nil (s : List Char) (h : s ≠ []) : quotePlus s ≠ [] := by
  cases s with
  | nil => exact absurd rfl h
  | cons a rest =>
      rw [quotePlus, quoteChar]
      split_ifs <;> simp

/-- Unfolding: a character that is neither `+` nor `%` passes through. -/
theorem unquotePlusFuel_plain (fuel : Nat) (c : Char) (t : List Char)
    (h1 : c ≠ '+') (h2 : c ≠ '%') :
    unquotePlusFuel (fuel + 1) (c :: t) = c :: unquotePlusFuel fuel t := by
  rcases t with _ | ⟨a, _ | ⟨b, t2⟩⟩ <;>
    simp only [unquotePlusFuel, if_neg h1, if_neg h2]

/-- Unfolding: `+` decodes to a space. -/
theorem unquotePlusFuel_space (fuel : Nat) (t : List Char) :
    unquotePlusFuel (fuel + 1) ('+' :: t) = ' ' :: unquotePlusFuel fuel t := by
  rcases t with _ | ⟨a, _ | ⟨b, t2⟩⟩ <;> simp [unquotePlusFuel]

/-- Unfolding: a `%XX` escape with hex digits decodes to the coded character. -/
theorem unquotePlusFuel_hex (fuel : Nat) (hi lo : Nat) (t : List Char)
    (hhi : hi < 16) (hlo : lo < 16) :
    unquotePlusFuel (fuel + 1) ('%' :: hexDigit hi :: hexDigit lo :: t) =
      Char.ofNat (hi * 16 + lo) :: unquotePlusFuel fuel t := by
  simp [unquotePlusFuel, hexVal_hexDigit _ hhi, hexVal_hexDigit _ hlo]

/-- The fuelled unquoter inverts the quoter on ASCII strings, for any
sufficient fuel. -/
theorem unquotePlusFuel_quote : ∀ (s : List Char) (fuel : Nat),
    (∀ c ∈ s, c.toNat < 256) → (quotePlus s).length ≤ fuel →
    unquotePlusFuel fuel (quotePlus s) = s := by
  intro s
  induction s with
  | nil =>
      intro fuel h hf
      cases fuel <;> rfl
  | cons c rest ih =>
      intro fuel h hf
      have hc : c.toNat < 256 := h c (by simp)
      have hrest : ∀ a ∈ rest, a.toNat < 256 := fun a ha => h a (by simp [ha])
      rw [quotePlus] at hf ⊢
      rw [quoteChar] at hf ⊢
      by_cases hsafe : isUrlSafeChar c = true
      · obtain ⟨h1, h2, -, -⟩ := safe_not_special c hsafe
        rw [if_pos hsafe] at hf ⊢
        simp only [List.singleton_append, List.length_cons] at hf ⊢
        cases fuel with
        | zero => omega
        | succ n =>
            rw [unquotePlusFuel_plain n c _ h2 h1, ih n hrest (by omega)]
      · rw [if_neg hsafe] at hf ⊢
        by_cases hsp : c = ' '
        · rw [if_pos hsp] at hf ⊢
          simp only [List.singleton_append, List.length_cons] at hf ⊢
          cases fuel with
          | zero => omega
          | succ n =>
              rw [unquotePlusFuel_space n _, ih n hrest (by omega), hsp]
        · rw [if_neg hsp] at hf ⊢
          simp only [List.cons_append, List.nil_append, List.length_cons] at hf ⊢
          cases fuel with
          | zero => omega
          | succ n =>
              have hhi : c.toNat / 16 < 16 := by omega
              have hlo : c.toNat % 16 < 16 := by omega
              rw [unquotePlusFuel_hex n _ _ _ hhi hlo, ih n hrest (by omega)]
              have hval : c.toNat / 16 * 16 + c.toNat % 16 = c.toNat := by omega
              rw [hval, Char.ofNat_toNat]

/-- `unquote_plus` inverts `quote_plus` on ASCII strings (the decoding
`parse_qsl` applies to what `urlencode` produced). -/
theorem unquote_quote (s : List Char) (h : ∀ c ∈ s, c.toNat < 256) :
    unquotePlus (quotePlus s) = s :=
  unquotePlusFuel_quote s (quotePlus s).length h le_rfl

/-- Splitting never yields an empty field list. -/
theorem splitOnChar_ne_nil (sep : Char) : ∀ l : List Char, splitOnChar sep l ≠ [] := by
  intro l
  induction l with
  | nil => simp [splitOnChar]
  | cons c rest ih =>
      rw [splitOnChar]
      cases hr : splitOnChar sep rest with
      | nil => simp
      | cons f fs => split_ifs <;> simp

/-- A string without the separator splits into the single field it is. -/
theorem splitOnChar_no_sep (sep : Char) : ∀ l : List Char, (∀ c ∈ l, c ≠ sep) →
    splitOnChar sep l = [l] := by
  intro l
  induction l with
  | nil => intro h; rfl
  | cons c rest ih =>
      intro h
      rw [splitOnChar, ih (fun a ha => h a (by simp [ha]))]
      dsimp only
      rw [if_neg (h c (by simp))]

/-- Splitting at the first separator: a separator-free prefix becomes the
first field. -/
theorem splitOnChar_append (sep : Char) : ∀ xs ys : List Char, (∀ c ∈ xs, c ≠ sep) →
    splitOnChar sep (xs ++ sep :: ys) = xs :: splitOnChar sep ys := by
  intro xs
  induction xs with
  | nil =>
      intro ys h
      rw [List.nil_append, splitOnChar]
      cases hr : splitOnChar sep ys with
      | nil => exact absurd hr (splitOnChar_ne_nil sep ys)
      | cons f fs =>
          dsimp only
          rw [if_pos rfl]
  | cons x xs ih =>
      intro ys h
      rw [List.cons_append, splitOnChar, ih ys (fun a ha => h a (by simp [ha]))]
      dsimp only
      rw [if_neg (h x (by simp))]

/-- Splitting a field at its first `=`: an `=`-free name becomes the name part. -/
theorem splitFirstEq_append : ∀ xs ys : List Char, (∀ c ∈ xs, c ≠ '=') →
    splitFirstEq (xs ++ '=' :: ys) = some (xs, ys) := by
  intro xs
  induction xs with
  | nil =>
      intro ys h
      rw [List.nil_append, splitFirstEq, if_pos rfl]
  | cons x xs ih =>
      intro ys h
      rw [List.cons_append, splitFirstEq, if_neg (h x (by simp)),
        ih ys (fun a ha => h a (by simp [ha]))]

/-- Parsing back the query string `__setitem__` sends recovers the token pair
and the (still base64-encoded) payload pair. -/
theorem parseQsl_setQuery (key slot token : List Char) (b : List Nat)
    (hkey : ∀ c ∈ key, c.toNat < 256) (hslot : ∀ c ∈ slot, c.toNat < 256)
    (htok : ∀ c ∈ token, c.toNat < 256) (htokne : token ≠ []) (hb : b ≠ [])
    (hbytes : ∀ x ∈ b, x < 256) :
    parseQsl (setQuery key slot token b) = [(key, token), (slot, b64encode b)] := by
  have hf1 : ∀ c ∈ quotePlus key ++ '=' :: quotePlus token, c ≠ '&' := by
    intro c hc
    rcases List.mem_append.mp hc with hc | hc
    · exact (quotePlus_mem key c hc).1
    · rcases List.mem_cons.mp hc with rfl | hc
      · decide
      · exact (quotePlus_mem token c hc).1
  have hf2 : ∀ c ∈ quotePlus slot ++ '=' :: quotePlus (b64encode b), c ≠ '&' := by
    intro c hc
    rcases List.mem_append.mp hc with hc | hc
    · exact (quotePlus_mem slot c hc).1
    · rcases List.mem_cons.mp hc with rfl | hc
      · decide
      · exact (quotePlus_mem (b64encode b) c hc).1
  have henc : ∀ c ∈ b64encode b, c.toNat < 256 := b64encode_ascii b hbytes
  have hsplit :
      splitOnChar '&' (setQuery key slot token b) =
        [quotePlus key ++ '=' :: quotePlus token,
          quotePlus slot ++ '=' :: quotePlus (b64encode b)] := by
    rw [setQuery, setPairs, urlencodePairs, urlencodePairs]
    dsimp only
    rw [splitOnChar_append '&' _ _ hf1, splitOnChar_no_sep '&' _ hf2]
    all_goals simp
  rw [parseQsl, hsplit]
  have hp1 : splitFirstEq (quotePlus key ++ '=' :: quotePlus token) =
      some (quotePlus key, quotePlus token) :=
    splitFirstEq_append _ _ (fun c hc => (quotePlus_mem key c hc).2)
  have hp2 : splitFirstEq (quotePlus slot ++ '=' :: quotePlus (b64encode b)) =
      some (quotePlus slot, quotePlus (b64encode b)) :=
    splitFirstEq_append _ _ (fun c hc => (quotePlus_mem slot c hc).2)
  have hne1 : quotePlus token ≠ [] := quotePlus_ne_nil token htokne
  have hne2 : quotePlus (b64encode b) ≠ [] :=
    quotePlus_ne_nil (b64encode b) (b64encode_ne_nil b hb)
  simp [List.filterMap_cons, hp1, hp2, hne1, hne2,
    unquote_quote key hkey, unquote_quote token htok, unquote_quote slot hslot,
    unquote_quote (b64encode b) henc]

/-- C4 counterexample: the round trip fails for the empty byte string.
Setting `b""` stores a blank `p=` value, `parse_qsl` drops blank values, so a
`get` served the same reflected response extracts nothing and returns `None`
instead of `b""`. -/
theorem C4_counterexample :
    cache_getitem ['p'] (some HIT_VALUE) [setQuery ['q'] ['p'] ['t'] []] =
      .value none ∧
    GetOutcome.value none ≠ GetOutcome.value (some ([] : List Nat)) :=
  ⟨by decide, by simp⟩

/-- C4 (amended): for every NON-EMPTY byte string `b` (of any length up to the
chunk size), a `set` on an uncached token succeeds, and a `get` that is served
the same reflected response returns exactly `b`; for `b = b""` the blank value
is dropped by query parsing and `get` returns `None`.  At the data level the
urlsafe base64 decoding applied by the extractor inverts the urlsafe base64
encoding applied by `set` for every byte string, including the empty one. -/
theorem C4_cache_roundtrip (key slot token : List Char) (b : List Nat)
    (hkey : ∀ c ∈ key, c.toNat < 256) (hslot : ∀ c ∈ slot, c.toNat < 256)
    (htok : ∀ c ∈ token, c.toNat < 256) (htokne : token ≠ [])
    (hslotkey : slot ≠ key) (hb : b ≠ []) (hbytes : ∀ x ∈ b, x < 256) :
    cache_setitem slot (some MISS_VALUE) [] = .ok ∧
    cache_getitem slot (some HIT_VALUE) [setQuery key slot token b] =
      .value (some b) ∧
    (∀ b' : List Nat, (∀ x ∈ b', x < 256) → b64decode (b64encode b') = some b') := by
  have hmiss : containsSubstr HIT_VALUE MISS_VALUE = false := by decide
  refine ⟨?_, ?_, fun b' h' => b64_roundtrip b' h'⟩
  · rw [cache_setitem]
    simp [hmiss]
  · have hhit : containsSubstr HIT_VALUE HIT_VALUE = true := by decide
    rw [cache_getitem]
    simp only [Option.getD_some, hhit, if_true]
    rw [cache_extract, extractFromQuery,
      parseQsl_setQuery key slot token b hkey hslot htok htokne hb hbytes]
    have hlook :
        dictLookup [(key, token), (slot, b64encode b)] slot = some (b64encode b) := by
      simp [dictLookup]
    rw [hlook]
    dsimp only
    rw [b64_roundtrip b hbytes]

/-- C4 witness: the round trip evaluated at `key = "q"`, `slot = "p"`,
`token = "t"`, payload `b"\x48"`. -/
theorem C4_cache_roundtrip_witness :
    (∀ c ∈ (['q'] : List Char), c.toNat < 256) ∧
    (∀ c ∈ (['p'] : List Char), c.toNat < 256) ∧
    (∀ c ∈ (['t'] : List Char), c.toNat < 256) ∧
    (['t'] : List Char) ≠ [] ∧
    (['p'] : List Char) ≠ (['q'] : List Char) ∧
    ([72] : List Nat) ≠ [] ∧
    (∀ x ∈ ([72] : List Nat), x < 256) ∧
    (cache_setitem ['p'] (some MISS_VALUE) [] = .ok ∧
      cache_getitem ['p'] (some HIT_VALUE) [setQuery ['q'] ['p'] ['t'] [72]] =
        .value (some [72]) ∧
      (∀ b' : List Nat, (∀ x ∈ b', x < 256) → b64decode (b64encode b') = some b')) :=
  ⟨by decide, by decide, by decide, by decide, by decide, by decide, by decide,
    C4_cache_roundtrip ['q'] ['p'] ['t'] [72] (by decide) (by decide) (by decide)
      (by decide) (by decide) (by decide) (by decide)⟩

end Cachecat
